import Mathlib

/-!
Verification development for the GutHib Smart-HTTP git server (src/server.js).

The JavaScript source is shallowly embedded: JS strings serving the git
protocol are byte/char sequences, modelled as `List Char` (or Lean `String`
where the routing layer compares whole strings).  Platform facilities that
the server merely calls (the filesystem existence check, `new URL`,
`crypto.createHmac`, `Date.now`, the network outcome of a webhook POST) are
inputs to the model, supplied through explicit context structures.
-/

namespace GutHib

/-! ## Packet-line codec (src/server.js, `packetLine` / `flushPkt`)

`packetLine(line)` computes `(line.length + 4).toString(16).padStart(4,'0') + line`.
`Nat.toDigits 16` is exactly JS `Number.prototype.toString(16)` for naturals:
minimal lowercase hex digits, `"0"` for zero. -/

/-- JS `String.prototype.padStart(4, '0')` on a digit list. -/
def padStart4 (l : List Char) : List Char :=
  List.replicate (4 - l.length) '0' ++ l

/-- `packetLine` from src/server.js lines 39-42. -/
def packetLine (line : List Char) : List Char :=
  padStart4 (Nat.toDigits 16 (line.length + 4)) ++ line

/-- `flushPkt` from src/server.js lines 45-47. -/
def flushPkt : List Char := ['0', '0', '0', '0']

/-- Value of a single lowercase-hex digit character. -/
def hexCharVal (c : Char) : Option Nat :=
  if c = '0' then some 0 else
  if c = '1' then some 1 else
  if c = '2' then some 2 else
  if c = '3' then some 3 else
  if c = '4' then some 4 else
  if c = '5' then some 5 else
  if c = '6' then some 6 else
  if c = '7' then some 7 else
  if c = '8' then some 8 else
  if c = '9' then some 9 else
  if c = 'a' then some 10 else
  if c = 'b' then some 11 else
  if c = 'c' then some 12 else
  if c = 'd' then some 13 else
  if c = 'e' then some 14 else
  if c = 'f' then some 15 else none

/-- Is `c` a lowercase hex digit? -/
def isLowerHexChar (c : Char) : Bool := (hexCharVal c).isSome

/-- Big-endian hex string evaluation with an accumulator. -/
def fromHexAux : List Char → Nat → Option Nat
  | [], acc => some acc
  | c :: cs, acc =>
    match hexCharVal c with
    | some d => fromHexAux cs (16 * acc + d)
    | none => none

/-- Value of a big-endian hex digit string. -/
def hexValue (l : List Char) : Option Nat := fromHexAux l 0

/-- The mathematical inverse of `packetLine`, used to state that the encoding
is exactly invertible: read the 4-character hex prefix, check consistency,
strip the prefix. -/
def decodePkt (s : List Char) : Option (List Char) :=
  if s.length < 4 then none
  else
    match hexValue (s.take 4) with
    | none => none
    | some n =>
      if n < 4 then none
      else if s.length = n then some (s.drop 4) else none

/-! ### Hex round-trip lemmas -/

theorem hexCharVal_digitChar {d : Nat} (h : d < 16) :
    hexCharVal (Nat.digitChar d) = some d := by
  interval_cases d <;> rfl

theorem isLowerHexChar_digitChar {d : Nat} (h : d < 16) :
    isLowerHexChar (Nat.digitChar d) = true := by
  simp [isLowerHexChar, hexCharVal_digitChar h]

/-- Master lemma about `Nat.toDigitsCore 16`: it prepends the hex digits of
`n` (most significant first) to `rest`; records the digit count `k`, the
bounds pinning `k`, the hex-digit-ness of the produced characters, and the
accumulator evaluation under `fromHexAux`. -/
theorem toDigitsCore_spec :
    ∀ (fuel n : Nat) (rest : List Char), n < fuel →
    ∃ k, 0 < k ∧ n < 16 ^ k ∧ (k = 1 ∨ 16 ^ (k - 1) ≤ n) ∧
      (Nat.toDigitsCore 16 fuel n rest).length = k + rest.length ∧
      (∀ c ∈ Nat.toDigitsCore 16 fuel n rest, c ∈ rest ∨ isLowerHexChar c = true) ∧
      (∀ acc, fromHexAux (Nat.toDigitsCore 16 fuel n rest) acc
        = fromHexAux rest (acc * 16 ^ k + n)) := by
  intro fuel
  induction fuel with
  | zero => intro n rest h; omega
  | succ fuel ih =>
    intro n rest _
    have hmod : n % 16 < 16 := by omega
    by_cases hz : n / 16 = 0
    · have hred : Nat.toDigitsCore 16 (fuel + 1) n rest
          = Nat.digitChar (n % 16) :: rest := by
        simp [Nat.toDigitsCore, hz]
      have hn16 : n % 16 = n := by omega
      refine ⟨1, Nat.one_pos, ?_, Or.inl rfl, ?_, ?_, ?_⟩
      · have : n < 16 := by omega
        simpa using this
      · rw [hred]; simp [Nat.add_comm]
      · intro c hc
        rw [hred] at hc
        rcases List.mem_cons.mp hc with hc | hc
        · right
          subst hc
          exact isLowerHexChar_digitChar hmod
        · exact Or.inl hc
      · intro acc
        rw [hred]
        simp only [fromHexAux, hexCharVal_digitChar hmod]
        rw [hn16, pow_one]
        congr 1
        omega
    · have hlt : n / 16 < fuel := by
        have h16 : 16 ≤ n := by
          by_contra hc
          exact hz (by omega)
        omega
      obtain ⟨k, hk0, hkub, hklb, hlen, hmem, heval⟩ :=
        ih (n / 16) (Nat.digitChar (n % 16) :: rest) hlt
      have hstep : Nat.toDigitsCore 16 (fuel + 1) n rest
          = Nat.toDigitsCore 16 fuel (n / 16) (Nat.digitChar (n % 16) :: rest) := by
        simp [Nat.toDigitsCore, hz]
      refine ⟨k + 1, by omega, ?_, ?_, ?_, ?_, ?_⟩
      · have : n < 16 * (n / 16) + 16 := by omega
        calc n < 16 * (n / 16) + 16 := this
          _ ≤ 16 * 16 ^ k := by
              have : n / 16 + 1 ≤ 16 ^ k := hkub
              nlinarith
          _ = 16 ^ (k + 1) := by ring
      · right
        rcases hklb with h1 | h2
        · subst h1
          have h16 : 16 ≤ n := by
            by_contra hc
            exact hz (by omega)
          simpa using h16
        · have hmul : 16 ^ (k - 1) * 16 ≤ (n / 16) * 16 := Nat.mul_le_mul_right 16 h2
          have hpow : 16 ^ (k - 1) * 16 = 16 ^ k := by
            have hk1 : k - 1 + 1 = k := by omega
            rw [← pow_succ, hk1]
          have hdiv : (n / 16) * 16 ≤ n := by omega
          simp only [Nat.add_sub_cancel]
          omega
      · rw [hstep, hlen]; simp; omega
      · intro c hc
        rw [hstep] at hc
        rcases hmem c hc with hin | hhex
        · rcases List.mem_cons.mp hin with hin | hin
          · right
            subst hin
            exact isLowerHexChar_digitChar hmod
          · exact Or.inl hin
        · exact Or.inr hhex
      · intro acc
        rw [hstep, heval acc]
        simp only [fromHexAux, hexCharVal_digitChar hmod]
        congr 1
        have hps : (16 : Nat) ^ (k + 1) = 16 ^ k * 16 := pow_succ 16 k
        have hdm : 16 * (n / 16) + n % 16 = n := Nat.div_add_mod n 16
        calc 16 * (acc * 16 ^ k + n / 16) + n % 16
            = acc * (16 ^ k * 16) + (16 * (n / 16) + n % 16) := by ring
          _ = acc * (16 ^ k * 16) + n := by rw [hdm]
          _ = acc * 16 ^ (k + 1) + n := by rw [hps]

/-- Specialisation to `Nat.toDigits 16 n`. -/
theorem toDigits16_spec (n : Nat) :
    ∃ k, 0 < k ∧ n < 16 ^ k ∧ (k = 1 ∨ 16 ^ (k - 1) ≤ n) ∧
      (Nat.toDigits 16 n).length = k ∧
      (∀ c ∈ Nat.toDigits 16 n, isLowerHexChar c = true) ∧
      fromHexAux (Nat.toDigits 16 n) 0 = some n := by
  obtain ⟨k, hk0, hkub, hklb, hlen, hmem, heval⟩ :=
    toDigitsCore_spec (n + 1) n [] (by omega)
  refine ⟨k, hk0, hkub, hklb, ?_, ?_, ?_⟩
  · simpa [Nat.toDigits] using hlen
  · intro c hc
    rcases hmem c (by simpa [Nat.toDigits] using hc) with h | h
    · simp at h
    · exact h
  · have := heval 0
    simpa [Nat.toDigits, fromHexAux] using this

theorem toDigits16_length_le (n : Nat) (h : n < 65536) :
    (Nat.toDigits 16 n).length ≤ 4 := by
  obtain ⟨k, hk0, hkub, hklb, hlen, -, -⟩ := toDigits16_spec n
  rw [hlen]
  by_contra hgt
  have h5 : 5 ≤ k := by omega
  rcases hklb with h1 | h2
  · omega
  · have : 16 ^ 4 ≤ 16 ^ (k - 1) := Nat.pow_le_pow_right (by omega) (by omega)
    omega

/-- Evaluating leading `'0'` padding under `fromHexAux` with accumulator 0. -/
theorem fromHexAux_replicate_zero (j : Nat) (s : List Char) :
    fromHexAux (List.replicate j '0' ++ s) 0 = fromHexAux s 0 := by
  induction j with
  | zero => rfl
  | succ j ih => simpa [List.replicate_succ, fromHexAux, hexCharVal] using ih

theorem hexValue_padStart4 (n : Nat) :
    hexValue (padStart4 (Nat.toDigits 16 n)) = some n := by
  obtain ⟨k, hk0, hkub, hklb, hlen, hmem, heval⟩ := toDigits16_spec n
  unfold hexValue padStart4
  rw [fromHexAux_replicate_zero]
  exact heval

theorem padStart4_length (n : Nat) (h : n < 65536) :
    (padStart4 (Nat.toDigits 16 n)).length = 4 := by
  have hle := toDigits16_length_le n h
  simp [padStart4]
  omega

/-! ## JS string helpers -/

/-- Scan of `String.prototype.includes`: does `p` occur as a contiguous run
somewhere in the list? -/
def substrAux (p : List Char) : List Char → Bool
  | [] => p.isPrefixOf []
  | c :: t => p.isPrefixOf (c :: t) || substrAux p t

/-- JS `s.includes(pat)` (substring containment). -/
def jsIncludes (s pat : String) : Bool := substrAux pat.data s.data

/-- JS `String.prototype.replace` with a plain-string pattern: replace the
first occurrence only.  Used for `service.replace('git-', '')`. -/
def replaceFirst (pat repl : List Char) : List Char → List Char
  | [] => if pat.isPrefixOf [] then repl else []
  | c :: t =>
    if pat.isPrefixOf (c :: t) then repl ++ (c :: t).drop pat.length
    else c :: replaceFirst pat repl t

/-- JS `Number.prototype.toString()` (base 10) on a natural. -/
def jsNumToString (n : Nat) : String := ⟨Nat.toDigits 10 n⟩

theorem isPrefixOf_iff (p : List Char) : ∀ l : List Char,
    p.isPrefixOf l = true ↔ ∃ r, l = p ++ r := by
  induction p with
  | nil => intro l; simp [List.isPrefixOf]
  | cons c p ih =>
    intro l
    cases l with
    | nil =>
      simp [List.isPrefixOf]
    | cons d t =>
      simp only [List.isPrefixOf, Bool.and_eq_true, beq_iff_eq, ih t, List.cons_append,
        List.cons.injEq]
      constructor
      · rintro ⟨hcd, r, hr⟩
        exact ⟨r, hcd.symm, hr⟩
      · rintro ⟨r, hdc, hr⟩
        exact ⟨hdc.symm, r, hr⟩

theorem substrAux_iff (p : List Char) : ∀ l : List Char,
    substrAux p l = true ↔ ∃ u v, l = u ++ p ++ v := by
  intro l
  induction l with
  | nil =>
    simp only [substrAux, isPrefixOf_iff]
    constructor
    · rintro ⟨r, hr⟩
      exact ⟨[], r, by simpa using hr⟩
    · rintro ⟨u, v, huv⟩
      have hu : u = [] := by
        cases u with
        | nil => rfl
        | cons a b => simp at huv
      subst hu
      exact ⟨v, by simpa using huv⟩
  | cons c t ih =>
    simp only [substrAux, Bool.or_eq_true, isPrefixOf_iff, ih]
    constructor
    · rintro (⟨r, hr⟩ | ⟨u, v, huv⟩)
      · exact ⟨[], r, by simpa using hr⟩
      · exact ⟨c :: u, v, by simp [huv]⟩
    · rintro ⟨u, v, huv⟩
      cases u with
      | nil =>
        exact Or.inl ⟨v, by simpa using huv⟩
      | cons a b =>
        right
        simp only [List.cons_append, List.cons.injEq] at huv
        exact ⟨b, v, huv.2⟩

/-- `jsIncludes s pat` is substring containment of the underlying
character sequences (so e.g. `"pushover".includes("push")` holds). -/
theorem jsIncludes_iff (s pat : String) :
    jsIncludes s pat = true ↔ ∃ u v, s.data = u ++ pat.data ++ v :=
  substrAux_iff pat.data s.data

/-! ## Server context and path routing (src/server.js, `parsePath` / `getRepoPath`)

`parsePath` applies the regex `^\/([^\/]+\.git)(\/.*)?$` to `url.pathname`:
the first path segment must be nonempty before a literal `.git` ending
(hence at least 5 characters overall and no `/`), the captured remainder
defaults to `"/"`.  URL parsing itself (`new URL(...)`) is a platform
facility; the model receives the already-split pathname and `service`
query parameter. -/

/-- The filesystem and repository root, as the handlers observe them:
`fsExists p` models `fs.existsSync(p)`. -/
structure ServerCtx where
  reposDir : String
  fsExists : String → Bool

/-- `getRepoPath` (src/server.js lines 69-71).  `path.join(REPOS_DIR, name)`
for a single slash-free segment is plain concatenation with a separator. -/
def getRepoPath (ctx : ServerCtx) (repoName : String) : String :=
  ctx.reposDir ++ "/" ++ repoName

/-- The regex character class `[^\/]`. -/
def notSlash (c : Char) : Bool := c ≠ '/'

/-- `parsePath` (src/server.js lines 50-66), restricted to the match data the
server uses: `some (repo, path)` when the regex matches, `none` otherwise
(`repo: null`). -/
def parsePath (pathname : String) : Option (String × String) :=
  match pathname.data with
  | '/' :: rest =>
    let seg := rest.takeWhile notSlash
    let tail := rest.dropWhile notSlash
    if 5 ≤ seg.length ∧ List.isSuffixOf ".git".data seg then
      some (⟨seg⟩, if tail.isEmpty then "/" else ⟨tail⟩)
    else
      none
  | _ => none

/-! ## HTTP handler models -/

/-- A git subprocess spawned by a Smart-HTTP handler, with its argument
shape from the source. -/
inductive GitSpawn where
  | advertiseRefs (serviceName : String) (repoPath : String)
  | uploadPack (repoPath : String)
  | receivePack (repoPath : String)
  deriving DecidableEq

/-- The observable HTTP-level result of a fully modelled route: status,
content type, the bytes written by the handler itself before any subprocess
output, and the subprocesses spawned. -/
structure HttpResponse where
  status : Nat
  contentType : String
  bodyPrefix : List Char
  spawns : List GitSpawn
  deriving DecidableEq

/-- The generic `404 Not Found` fallthrough at the end of the request
handler (src/server.js lines 1245-1247). -/
def notFoundResponse : HttpResponse :=
  { status := 404, contentType := "text/plain", bodyPrefix := "Not Found".data, spawns := [] }

/-- `handleInfoRefs` (src/server.js lines 73-98): 404 when the resolved
path does not exist, otherwise 200 with the service announcement packet
line plus flush packet written before `git <service> --stateless-rpc
--advertise-refs <path>` output is piped. -/
def handleInfoRefs (ctx : ServerCtx) (repoName service : String) : HttpResponse :=
  let repoPath := getRepoPath ctx repoName
  if ctx.fsExists repoPath = false then
    { status := 404, contentType := "text/plain",
      bodyPrefix := "Repository not found".data, spawns := [] }
  else
    let serviceName : String := ⟨replaceFirst "git-".data [] service.data⟩
    { status := 200,
      contentType := "application/x-git-" ++ serviceName ++ "-advertisement",
      bodyPrefix := packetLine ("# service=" ++ service ++ "\n").data ++ flushPkt,
      spawns := [GitSpawn.advertiseRefs serviceName repoPath] }

/-- `handleUploadPack` (src/server.js lines 100-120). -/
def handleUploadPack (ctx : ServerCtx) (repoName : String) : HttpResponse :=
  let repoPath := getRepoPath ctx repoName
  if ctx.fsExists repoPath = false then
    { status := 404, contentType := "text/plain",
      bodyPrefix := "Repository not found".data, spawns := [] }
  else
    { status := 200, contentType := "application/x-git-upload-pack-result",
      bodyPrefix := [], spawns := [GitSpawn.uploadPack repoPath] }

/-! ## Webhook dispatcher (src/server.js, `triggerWebhooks` lines 219-270)

The webhook rows come from external SQLite storage (`listWebhooks`); the
model receives them as a list.  `new URL`, `createHmac`, `Date.now`,
`new Date().toISOString()` and the network outcome of each POST are
platform facilities, supplied by a `WebhookEnv`; the index argument of the
per-iteration functions is the position among the *matching* webhooks, i.e.
the successive calls the loop makes. -/

/-- A stored webhook subscription row (`webhooks` table). -/
structure Webhook where
  url : String
  secret : String
  events : String
  deriving DecidableEq

/-- The components of a parsed WHATWG URL that `triggerWebhooks` reads. -/
structure UrlParts where
  isHttps : Bool
  hostname : String
  port : Option Nat
  pathname : String
  search : String
  deriving DecidableEq

/-- The network result of one webhook POST: a response status code, or a
connection error message. -/
inductive DeliveryOutcome where
  | response (statusCode : Nat)
  | connError (msg : String)
  deriving DecidableEq

/-- Platform facilities consumed by the dispatcher. -/
structure WebhookEnv where
  /-- `new URL(webhook.url)`; `none` models the constructor throwing. -/
  parseUrl : String → Option UrlParts
  /-- `createHmac('sha256', key).update(msg).digest('hex')`. -/
  hmacHex : (key : String) → (msg : String) → String
  /-- `Date.now()` at the i-th matching-webhook iteration. -/
  clock : Nat → Nat
  /-- `new Date().toISOString()` at the i-th matching-webhook iteration. -/
  isoTime : Nat → String
  /-- network result of the i-th issued request. -/
  outcome : Nat → DeliveryOutcome

/-- The outbound HTTP request options + body handed to `proto.request`. -/
structure WebhookRequest where
  hostname : String
  port : Nat
  path : String
  headers : List (String × String)
  body : String
  deriving DecidableEq

/-- One loop iteration's observable effects for a matching webhook: the
serialized body, the issued request (`none` when `new URL` threw and the
`catch` block ran), and the console log lines. -/
structure DeliveryRecord where
  webhook : Webhook
  body : String
  request : Option WebhookRequest
  logs : List String
  deriving DecidableEq

/-- The extra payload `handleReceivePack` passes to `triggerWebhooks`. -/
structure PushPayload where
  ref : String
  deriving DecidableEq

/-- `JSON.stringify({event, repository, timestamp, ...payload})` with
`payload = {ref}`: field order follows the object literal.  (The inputs the
server feeds here need no JSON escaping.) -/
def stringifyPush (event repoName tsIso ref : String) : String :=
  "\x7b\"event\":\"" ++ event ++ "\",\"repository\":\"" ++ repoName ++
    "\",\"timestamp\":\"" ++ tsIso ++ "\",\"ref\":\"" ++ ref ++ "\"\x7d"

/-- The headers object built for one delivery (src/server.js lines 240-252):
four fixed headers, then the signature header added only when the
subscription has a (truthy, i.e. nonempty) secret. -/
def mkHeaders (env : WebhookEnv) (i : Nat) (event : String) (w : Webhook)
    (body : String) : List (String × String) :=
  [("Content-Type", "application/json"),
   ("Content-Length", jsNumToString body.length),
   ("X-GutHib-Event", event),
   ("X-GutHib-Delivery", jsNumToString (env.clock i))] ++
  (if w.secret ≠ "" then
    [("X-GutHib-Signature", "sha256=" ++ env.hmacHex w.secret body)]
   else [])

/-- JS `url.port || (url.protocol === 'https:' ? 443 : 80)`. -/
def effectivePort (u : UrlParts) : Nat :=
  match u.port with
  | some p => p
  | none => if u.isHttps then 443 else 80

/-- One iteration of the `for` loop in `triggerWebhooks` for the i-th
matching webhook. -/
def mkDelivery (env : WebhookEnv) (repoName event : String) (payload : PushPayload)
    (i : Nat) (w : Webhook) : DeliveryRecord :=
  let body := stringifyPush event repoName (env.isoTime i) payload.ref
  match env.parseUrl w.url with
  | none =>
    { webhook := w, body := body, request := none,
      logs := ["Webhook " ++ w.url ++ " error"] }
  | some u =>
    let req : WebhookRequest :=
      { hostname := u.hostname, port := effectivePort u,
        path := u.pathname ++ u.search,
        headers := mkHeaders env i event w body, body := body }
    let log :=
      match env.outcome i with
      | DeliveryOutcome.response sc =>
          "Webhook " ++ w.url ++ " responded with " ++ jsNumToString sc
      | DeliveryOutcome.connError m =>
          "Webhook " ++ w.url ++ " failed: " ++ m
    { webhook := w, body := body, request := some req, logs := [log] }

/-- `triggerWebhooks` (src/server.js lines 219-270): iterate the stored
subscriptions, skip those whose `events` string does not `include` the
event, and run one delivery iteration for each survivor. -/
def triggerWebhooks (env : WebhookEnv) (webhooks : List Webhook)
    (repoName event : String) (payload : PushPayload) : List DeliveryRecord :=
  ((webhooks.filter (fun w => jsIncludes w.events event)).enum).map
    (fun p => mkDelivery env repoName event payload p.1 p.2)

/-- The observable result of a receive-pack request: the HTTP response
(written while the subprocess streams) and the webhook deliveries performed
by the `close` handler. -/
structure ReceivePackResult where
  response : HttpResponse
  deliveries : List DeliveryRecord
  deriving DecidableEq

/-- `handleReceivePack` (src/server.js lines 122-151): 404 when the path
does not exist; otherwise 200 streaming the subprocess, and on `close` with
exit code 0 trigger the webhooks for event `push` with the hardcoded
payload `{ref: 'refs/heads/main'}` — the request body (the actual pushed
refs) is never consulted for the payload. -/
def handleReceivePack (ctx : ServerCtx) (env : WebhookEnv) (webhooks : List Webhook)
    (repoName : String) (exitCode : Int) : ReceivePackResult :=
  let repoPath := getRepoPath ctx repoName
  if ctx.fsExists repoPath = false then
    { response := { status := 404, contentType := "text/plain",
                    bodyPrefix := "Repository not found".data, spawns := [] },
      deliveries := [] }
  else
    { response := { status := 200, contentType := "application/x-git-receive-pack-result",
                    bodyPrefix := [], spawns := [GitSpawn.receivePack repoPath] },
      deliveries :=
        if exitCode = 0 then
          triggerWebhooks env webhooks repoName "push" { ref := "refs/heads/main" }
        else [] }

/-! ## Request dispatch for `.git` URLs (src/server.js lines 1167-1247)

The API routes earlier in the handler (lines 1068-1165) compare `req.url`
against `/`, `/api/repos` and `/api/repos/...` shapes; a URL whose first
path segment ends in `.git` (the only case in which `repo` is non-null)
matches none of them, so the `if (repo)` block and the final 404 fully
determine those requests.  The HTML page routes inside the block are
matched structurally below; their renderers are UI, outside this core, so
a matched page route is reported as `RouteOutcome.page` without modelling
the produced HTML. -/

inductive Method where
  | get
  | post
  | delete
  deriving DecidableEq

def isHexChar (c : Char) : Bool :=
  ('0' ≤ c && c ≤ '9') || ('a' ≤ c && c ≤ 'f') || ('A' ≤ c && c ≤ 'F')

/-- Regex `^\/commit\/([a-f0-9]+)$` with the `i` flag. -/
def commitMatch (p : List Char) : Option (List Char) :=
  if List.isPrefixOf "/commit/".data p then
    let h := p.drop 8
    if h ≠ [] ∧ h.all isHexChar then some h else none
  else none

/-- Regex `^\/tree\/([a-f0-9]+|[^\/]+)$` with the `i` flag: one nonempty
slash-free segment (the hex alternative is subsumed). -/
def treeMatch (p : List Char) : Option (List Char) :=
  if List.isPrefixOf "/tree/".data p then
    let s := p.drop 6
    if s ≠ [] ∧ ¬ '/' ∈ s then some s else none
  else none

/-- Regex `^\/blob\/([a-f0-9]+|[^\/]+)\/(.+)$` with the `i` flag: a
slash-free ref segment, then a nonempty remainder. -/
def blobMatch (p : List Char) : Option (List Char × List Char) :=
  if List.isPrefixOf "/blob/".data p then
    let s := p.drop 6
    let ref := s.takeWhile (fun c => c ≠ '/')
    let rest := s.dropWhile (fun c => c ≠ '/')
    match rest with
    | '/' :: f => if ref ≠ [] ∧ f ≠ [] then some (ref, f) else none
    | _ => none
  else none

/-- Regex `^\/compare\/([a-f0-9]+)\.\.\.([a-f0-9]+)$` with the `i` flag
(`.` is not a hex character, so the `...` split is the end of the first
hex run). -/
def compareMatch (p : List Char) : Option (List Char × List Char) :=
  if List.isPrefixOf "/compare/".data p then
    let s := p.drop 9
    let a := s.takeWhile isHexChar
    let rest := s.dropWhile isHexChar
    if a ≠ [] ∧ List.isPrefixOf "...".data rest ∧ rest.drop 3 ≠ [] ∧
        (rest.drop 3).all isHexChar then
      some (a, rest.drop 3)
    else none
  else none

/-- An HTML UI route under a `.git` URL (handler outside this core). -/
inductive PageKind where
  | commit (hash : String)
  | tree (ref : String)
  | blob (ref : String) (filePath : String)
  | compare (base : String) (head : String)
  | repoHome
  deriving DecidableEq

/-- Where the request handler sends a request whose URL is under a
`.git` first segment. -/
inductive GitDecision where
  | nonGit
  | notFound
  | infoRefs (repo service : String)
  | uploadPack (repo : String)
  | receivePack (repo : String)
  | page (repo : String) (kind : PageKind)
  deriving DecidableEq

/-- The page-route cascade (src/server.js lines 1190-1242) followed by the
final 404: each page route requires method GET. -/
def pageRoute (method : Method) (repo urlPath : String) : GitDecision :=
  if method = Method.get then
    match commitMatch urlPath.data with
    | some h => GitDecision.page repo (PageKind.commit ⟨h⟩)
    | none =>
      match treeMatch urlPath.data with
      | some r => GitDecision.page repo (PageKind.tree ⟨r⟩)
      | none =>
        match blobMatch urlPath.data with
        | some rf => GitDecision.page repo (PageKind.blob ⟨rf.1⟩ ⟨rf.2⟩)
        | none =>
          match compareMatch urlPath.data with
          | some ab => GitDecision.page repo (PageKind.compare ⟨ab.1⟩ ⟨ab.2⟩)
          | none =>
            if urlPath = "/" then GitDecision.page repo PageKind.repoHome
            else GitDecision.notFound
  else GitDecision.notFound

/-- The routing decision for one request (src/server.js lines 1167-1247).
Discovery checks the `service` query parameter but not the method;
upload-pack/receive-pack require POST; anything else falls through the
page cascade to the final 404. -/
def routeRequest (method : Method) (pathname : String) (service : Option String) :
    GitDecision :=
  match parsePath pathname with
  | none => GitDecision.nonGit
  | some (repo, urlPath) =>
    if urlPath = "/info/refs" ∧ service = some "git-upload-pack" then
      GitDecision.infoRefs repo "git-upload-pack"
    else if urlPath = "/info/refs" ∧ service = some "git-receive-pack" then
      GitDecision.infoRefs repo "git-receive-pack"
    else if urlPath = "/git-upload-pack" ∧ method = Method.post then
      GitDecision.uploadPack repo
    else if urlPath = "/git-receive-pack" ∧ method = Method.post then
      GitDecision.receivePack repo
    else pageRoute method repo urlPath

/-- Outcome of serving a `.git` request end to end. -/
inductive RouteOutcome where
  | plain (response : HttpResponse) (deliveries : List DeliveryRecord)
  | page (repo : String) (kind : PageKind)
  | nonGit
  deriving DecidableEq

/-- Serve one request against the modelled handlers.  `exitCode` is the
eventual exit status of the receive-pack subprocess (unused by the other
routes). -/
def serve (ctx : ServerCtx) (env : WebhookEnv) (webhooks : List Webhook)
    (exitCode : Int) (method : Method) (pathname : String)
    (service : Option String) : RouteOutcome :=
  match routeRequest method pathname service with
  | GitDecision.nonGit => RouteOutcome.nonGit
  | GitDecision.notFound => RouteOutcome.plain notFoundResponse []
  | GitDecision.infoRefs repo svc => RouteOutcome.plain (handleInfoRefs ctx repo svc) []
  | GitDecision.uploadPack repo => RouteOutcome.plain (handleUploadPack ctx repo) []
  | GitDecision.receivePack repo =>
    let r := handleReceivePack ctx env webhooks repo exitCode
    RouteOutcome.plain r.response r.deliveries
  | GitDecision.page repo k => RouteOutcome.page repo k

/-- HTTP status of a fully modelled outcome. -/
def statusOf : RouteOutcome → Option Nat
  | RouteOutcome.plain r _ => some r.status
  | _ => none

/-- Subprocesses spawned by a fully modelled outcome. -/
def spawnsOf : RouteOutcome → List GitSpawn
  | RouteOutcome.plain r _ => r.spawns
  | _ => []

/-! ## Helper lemmas -/

theorem enumFrom_map_snd {α : Type} : ∀ (n : Nat) (l : List α),
    (l.enumFrom n).map Prod.snd = l := by
  intro n l
  induction l generalizing n with
  | nil => rfl
  | cons a t ih => simp [List.enumFrom, ih]

theorem enumFrom_get? {α : Type} : ∀ (l : List α) (n i : Nat),
    (l.enumFrom n).get? i = (l.get? i).map (fun a => (n + i, a)) := by
  intro l
  induction l with
  | nil => intro n i; simp [List.enumFrom]
  | cons a t ih =>
    intro n i
    cases i with
    | zero => simp [List.enumFrom]
    | succ j =>
      simp only [List.enumFrom, List.get?, ih (n + 1) j]
      have : n + 1 + j = n + (j + 1) := by omega
      rw [this]

theorem mkDelivery_webhook (env : WebhookEnv) (rn ev : String) (pl : PushPayload)
    (i : Nat) (w : Webhook) : (mkDelivery env rn ev pl i w).webhook = w := by
  cases h : env.parseUrl w.url <;> simp [mkDelivery, h]

theorem mkDelivery_body (env : WebhookEnv) (rn ev : String) (pl : PushPayload)
    (i : Nat) (w : Webhook) :
    (mkDelivery env rn ev pl i w).body = stringifyPush ev rn (env.isoTime i) pl.ref := by
  cases h : env.parseUrl w.url <;> simp [mkDelivery, h]

theorem triggerWebhooks_map_webhook (env : WebhookEnv) (ws : List Webhook)
    (rn ev : String) (pl : PushPayload) :
    (triggerWebhooks env ws rn ev pl).map DeliveryRecord.webhook
      = ws.filter (fun w => jsIncludes w.events ev) := by
  unfold triggerWebhooks
  rw [List.map_map]
  have hfun : (DeliveryRecord.webhook ∘ fun p : Nat × Webhook => mkDelivery env rn ev pl p.1 p.2)
      = Prod.snd := by
    funext p
    exact mkDelivery_webhook env rn ev pl p.1 p.2
  rw [hfun]
  exact enumFrom_map_snd 0 (ws.filter (fun w => jsIncludes w.events ev))

/-- The components of a delivery other than its log lines do not depend on
the delivery outcomes. -/
theorem mkDelivery_core_congr (env env' : WebhookEnv)
    (hp : env.parseUrl = env'.parseUrl) (hh : env.hmacHex = env'.hmacHex)
    (hc : env.clock = env'.clock) (ht : env.isoTime = env'.isoTime)
    (rn ev : String) (pl : PushPayload) (i : Nat) (w : Webhook) :
    (mkDelivery env rn ev pl i w).webhook = (mkDelivery env' rn ev pl i w).webhook
    ∧ (mkDelivery env rn ev pl i w).body = (mkDelivery env' rn ev pl i w).body
    ∧ (mkDelivery env rn ev pl i w).request = (mkDelivery env' rn ev pl i w).request := by
  cases h : env'.parseUrl w.url <;>
    simp [mkDelivery, hp, h, mkHeaders, hh, hc, ht]

/-- A delivery is fully determined by its own outcome (plus the
outcome-independent platform functions). -/
theorem mkDelivery_congr_outcome (env env' : WebhookEnv)
    (hp : env.parseUrl = env'.parseUrl) (hh : env.hmacHex = env'.hmacHex)
    (hc : env.clock = env'.clock) (ht : env.isoTime = env'.isoTime)
    (rn ev : String) (pl : PushPayload) (i : Nat) (w : Webhook)
    (ho : env.outcome i = env'.outcome i) :
    mkDelivery env rn ev pl i w = mkDelivery env' rn ev pl i w := by
  cases h : env'.parseUrl w.url <;>
    simp [mkDelivery, hp, h, mkHeaders, hh, hc, ht, ho]

theorem lookup_mkHeaders_sig (env : WebhookEnv) (i : Nat) (ev : String)
    (w : Webhook) (body : String) :
    (mkHeaders env i ev w body).lookup "X-GutHib-Signature"
      = if w.secret = "" then none
        else some ("sha256=" ++ env.hmacHex w.secret body) := by
  by_cases hs : w.secret = "" <;> simp [mkHeaders, hs, List.lookup]

theorem takeWhile_append_all {p : Char → Bool} :
    ∀ {l₁ : List Char} (l₂ : List Char), (∀ c ∈ l₁, p c = true) →
    (l₁ ++ l₂).takeWhile p = l₁ ++ l₂.takeWhile p := by
  intro l₁
  induction l₁ with
  | nil => intro l₂ _; rfl
  | cons c t ih =>
    intro l₂ hall
    have hc : p c = true := hall c (List.mem_cons_self c t)
    simp only [List.cons_append, List.takeWhile_cons, hc, if_true]
    rw [ih l₂ (fun d hd => hall d (List.mem_cons_of_mem c hd))]

theorem dropWhile_append_all {p : Char → Bool} :
    ∀ {l₁ : List Char} (l₂ : List Char), (∀ c ∈ l₁, p c = true) →
    (l₁ ++ l₂).dropWhile p = l₂.dropWhile p := by
  intro l₁
  induction l₁ with
  | nil => intro l₂ _; rfl
  | cons c t ih =>
    intro l₂ hall
    have hc : p c = true := hall c (List.mem_cons_self c t)
    simp only [List.cons_append, List.dropWhile_cons, hc, if_true]
    exact ih l₂ (fun d hd => hall d (List.mem_cons_of_mem c hd))

theorem isPrefixOf_append_self (l r : List Char) : l.isPrefixOf (l ++ r) = true :=
  (isPrefixOf_iff l (l ++ r)).mpr ⟨r, rfl⟩

theorem isSuffixOf_append_self (p l : List Char) :
    List.isSuffixOf p (l ++ p) = true := by
  unfold List.isSuffixOf
  rw [List.reverse_append]
  exact isPrefixOf_append_self p.reverse l.reverse

theorem pageRoute_infoRefs (method : Method) (repo : String) :
    pageRoute method repo "/info/refs" = GitDecision.notFound := by
  cases method <;> rfl

/-! ## Concrete fixtures for witnesses and counterexamples -/

/-- A context in which every repository path exists. -/
def ctxAll : ServerCtx := { reposDir := "./repos", fsExists := fun _ => true }

/-- A context in which no repository path exists. -/
def ctxNone : ServerCtx := { reposDir := "./repos", fsExists := fun _ => false }

/-- A fixed platform environment: every URL parses, HMAC is an injective
stand-in, and both `Date.now()` calls land in the same millisecond. -/
def envFix : WebhookEnv :=
  { parseUrl := fun _ =>
      some { isHttps := false, hostname := "ci.example.com", port := none,
             pathname := "/hook", search := "" },
    hmacHex := fun key msg => key ++ ":" ++ msg,
    clock := fun _ => 42,
    isoTime := fun _ => "2026-02-03T04:05:06.789Z",
    outcome := fun _ => DeliveryOutcome.response 200 }

/-- `envFix` with every delivery failing at the network level. -/
def envFailing : WebhookEnv :=
  { envFix with outcome := fun _ => DeliveryOutcome.connError "ECONNREFUSED" }

def hookA : Webhook := { url := "http://a.example/hook", secret := "", events := "push" }

def hookB : Webhook := { url := "http://b.example/hook", secret := "s", events := "push" }

/-! ## Claim theorems -/

/-- C1: for a receive-pack request on an existing repository, exit status 0
triggers exactly one dispatch attempt per stored subscription whose events
match `push` (the delivered records project onto exactly the matching
subscriptions), a nonzero exit status triggers zero dispatch attempts, and
the nonzero exit is not an HTTP-level error (the status is 200 either
way). -/
theorem receivePack_dispatch_iff_exit_zero (ctx : ServerCtx) (env : WebhookEnv)
    (webhooks : List Webhook) (repo : String) (exitCode : Int)
    (hex : ctx.fsExists (getRepoPath ctx repo) = true) :
    (handleReceivePack ctx env webhooks repo exitCode).response.status = 200
    ∧ (exitCode = 0 →
        (handleReceivePack ctx env webhooks repo exitCode).deliveries.map
            DeliveryRecord.webhook
          = webhooks.filter (fun w => jsIncludes w.events "push"))
    ∧ (exitCode ≠ 0 →
        (handleReceivePack ctx env webhooks repo exitCode).deliveries = []) := by
  refine ⟨?_, ?_, ?_⟩
  · simp [handleReceivePack, hex]
  · intro h0
    simp [handleReceivePack, hex, h0, triggerWebhooks_map_webhook]
  · intro hne
    simp [handleReceivePack, hex, hne]

theorem receivePack_dispatch_iff_exit_zero_witness :
    (ctxAll.fsExists (getRepoPath ctxAll "r.git") = true)
    ∧ ((handleReceivePack ctxAll envFix [hookA, hookB] "r.git" 0).response.status = 200
      ∧ ((0 : Int) = 0 →
          (handleReceivePack ctxAll envFix [hookA, hookB] "r.git" 0).deliveries.map
              DeliveryRecord.webhook
            = [hookA, hookB].filter (fun w => jsIncludes w.events "push"))
      ∧ ((0 : Int) ≠ 0 →
          (handleReceivePack ctxAll envFix [hookA, hookB] "r.git" 0).deliveries = [])) :=
  ⟨rfl, receivePack_dispatch_iff_exit_zero ctxAll envFix [hookA, hookB] "r.git" 0 rfl⟩

/-- C2 counterexample: a discovery request for an *existing* repository with
an unsupported `service` value returns 404 (the generic fallthrough), not
the 400 the claim states. -/
theorem invalid_service_returns_404_not_400 :
    ctxAll.fsExists (getRepoPath ctxAll "r.git") = true
    ∧ statusOf (serve ctxAll envFix [] 0 Method.get "/r.git/info/refs" (some "git-fetch"))
        = some 404
    ∧ statusOf (serve ctxAll envFix [] 0 Method.get "/r.git/info/refs" (some "git-fetch"))
        ≠ some 400 := by
  refine ⟨rfl, ?_, ?_⟩ <;> decide

/-- C2 (amended): for a discovery (info/refs) request, a nonexistent
repository yields status 404 regardless of the service value, and an
existing repository with a missing or unsupported service value also
yields 404 (the request falls through to the generic not-found handler),
not 400. -/
theorem infoRefs_status_amended (ctx : ServerCtx) (env : WebhookEnv)
    (webhooks : List Webhook) (exitCode : Int) (method : Method)
    (pathname repo : String) (service : Option String)
    (hroute : parsePath pathname = some (repo, "/info/refs")) :
    (ctx.fsExists (getRepoPath ctx repo) = false →
      statusOf (serve ctx env webhooks exitCode method pathname service) = some 404)
    ∧ (service ≠ some "git-upload-pack" → service ≠ some "git-receive-pack" →
      statusOf (serve ctx env webhooks exitCode method pathname service) = some 404) := by
  constructor
  · intro hfs
    by_cases h1 : service = some "git-upload-pack"
    · simp [serve, routeRequest, hroute, h1, handleInfoRefs, hfs, statusOf]
    · by_cases h2 : service = some "git-receive-pack"
      · simp [serve, routeRequest, hroute, h1, h2, handleInfoRefs, hfs, statusOf]
      · simp [serve, routeRequest, hroute, h1, h2, pageRoute_infoRefs, statusOf,
          notFoundResponse]
  · intro h1 h2
    simp [serve, routeRequest, hroute, h1, h2, pageRoute_infoRefs, statusOf,
      notFoundResponse]

theorem infoRefs_status_amended_witness :
    (parsePath "/s.git/info/refs" = some ("s.git", "/info/refs"))
    ∧ ((ctxNone.fsExists (getRepoPath ctxNone "s.git") = false →
        statusOf (serve ctxNone envFix [] 0 Method.get "/s.git/info/refs" (some "bad"))
          = some 404)
      ∧ (some "bad" ≠ some "git-upload-pack" → some "bad" ≠ some "git-receive-pack" →
        statusOf (serve ctxNone envFix [] 0 Method.get "/s.git/info/refs" (some "bad"))
          = some 404)) :=
  ⟨by decide,
   infoRefs_status_amended ctxNone envFix [] 0 Method.get "/s.git/info/refs" "s.git"
     (some "bad") (by decide)⟩

/-- C3 counterexample: the discovery body for `git-receive-pack` on an
existing repository does *not* begin with
`001e# service=git-receive-pack\n0000` (its pkt-line length prefix is
`001f`, not the claimed literal `001e`). -/
theorem receivePack_advertisement_not_001e :
    (handleInfoRefs ctxAll "r.git" "git-receive-pack").status = 200
    ∧ List.isPrefixOf ("001e# service=git-receive-pack\n0000").data
        (handleInfoRefs ctxAll "r.git" "git-receive-pack").bodyPrefix = false
    ∧ (handleInfoRefs ctxAll "r.git" "git-receive-pack").bodyPrefix
        = ("001f# service=git-receive-pack\n0000").data := by
  refine ⟨rfl, ?_, ?_⟩ <;> decide

/-- C3 (amended): the discovery response body for an existing repository
begins with the pkt-line encoding of `# service=<service>\n` followed by
the flush packet; concretely that prefix is
`001e# service=git-upload-pack\n0000` for `git-upload-pack` but
`001f# service=git-receive-pack\n0000` for `git-receive-pack` (the two
services give different length prefixes, not one fixed literal). -/
theorem advertisement_prefix_amended (ctx : ServerCtx) (repo service : String)
    (hex : ctx.fsExists (getRepoPath ctx repo) = true) :
    (handleInfoRefs ctx repo service).bodyPrefix
        = packetLine ("# service=" ++ service ++ "\n").data ++ flushPkt
    ∧ (service = "git-upload-pack" →
        (handleInfoRefs ctx repo service).bodyPrefix
          = ("001e# service=git-upload-pack\n0000").data)
    ∧ (service = "git-receive-pack" →
        (handleInfoRefs ctx repo service).bodyPrefix
          = ("001f# service=git-receive-pack\n0000").data) := by
  refine ⟨?_, ?_, ?_⟩
  · simp [handleInfoRefs, hex]
  · intro hs
    subst hs
    simp only [handleInfoRefs, hex, Bool.true_eq_false, if_false]
    decide
  · intro hs
    subst hs
    simp only [handleInfoRefs, hex, Bool.true_eq_false, if_false]
    decide

/-- C4: `packetLine` on any line of at most 65516 bytes produces a
4-character lowercase-hex prefix whose value counts the 4 prefix bytes plus
the line's length, followed by the line itself, and `decodePkt` inverts it
exactly. -/
theorem packetLine_roundtrip (L : List Char) (h : L.length ≤ 65516) :
    (packetLine L).length = L.length + 4
    ∧ (packetLine L).drop 4 = L
    ∧ (∀ c ∈ (packetLine L).take 4, isLowerHexChar c = true)
    ∧ hexValue ((packetLine L).take 4) = some (L.length + 4)
    ∧ decodePkt (packetLine L) = some L := by
  have hn : L.length + 4 < 65536 := by omega
  have plen : (padStart4 (Nat.toDigits 16 (L.length + 4))).length = 4 :=
    padStart4_length _ hn
  have htake : (packetLine L).take 4 = padStart4 (Nat.toDigits 16 (L.length + 4)) := by
    unfold packetLine
    have h0 := List.take_left (padStart4 (Nat.toDigits 16 (L.length + 4))) L
    rw [plen] at h0
    exact h0
  have hdrop : (packetLine L).drop 4 = L := by
    unfold packetLine
    have h0 := List.drop_left (padStart4 (Nat.toDigits 16 (L.length + 4))) L
    rw [plen] at h0
    exact h0
  have hlen : (packetLine L).length = L.length + 4 := by
    unfold packetLine
    rw [List.length_append, plen]
    omega
  have hhex : hexValue ((packetLine L).take 4) = some (L.length + 4) := by
    rw [htake]
    exact hexValue_padStart4 _
  refine ⟨hlen, hdrop, ?_, hhex, ?_⟩
  · intro c hc
    rw [htake] at hc
    unfold padStart4 at hc
    rcases List.mem_append.mp hc with hz | hd
    · have hc0 : c = '0' := List.eq_of_mem_replicate hz
      subst hc0
      rfl
    · obtain ⟨k, -, -, -, -, hmem, -⟩ := toDigits16_spec (L.length + 4)
      exact hmem c hd
  · unfold decodePkt
    rw [hhex, hlen]
    have h1 : ¬ (L.length + 4 < 4) := by omega
    simp [h1, hdrop]

theorem packetLine_roundtrip_witness :
    (("abc").data.length ≤ 65516)
    ∧ ((packetLine ("abc").data).length = ("abc").data.length + 4
      ∧ (packetLine ("abc").data).drop 4 = ("abc").data
      ∧ (∀ c ∈ (packetLine ("abc").data).take 4, isLowerHexChar c = true)
      ∧ hexValue ((packetLine ("abc").data).take 4) = some (("abc").data.length + 4)
      ∧ decodePkt (packetLine ("abc").data) = some ("abc").data) :=
  ⟨by decide, packetLine_roundtrip ("abc").data (by decide)⟩

/-- C5 counterexample: the router accepts the repository name `a..b.git`,
which contains `..` and the out-of-charset character `.`, and for a request
on it (when the resolved path exists) a subprocess is spawned. -/
theorem router_accepts_dotdot_name :
    parsePath "/a..b.git/info/refs" = some ("a..b.git", "/info/refs")
    ∧ jsIncludes "a..b.git" ".." = true
    ∧ spawnsOf (serve ctxAll envFix [] 0 Method.get "/a..b.git/info/refs"
          (some "git-upload-pack"))
        = [GitSpawn.advertiseRefs "upload-pack" "./repos/a..b.git"] := by
  refine ⟨?_, ?_, ?_⟩ <;> decide

/-- C5 (amended): the router's only checks on the repository name are that
the first path segment contains no `/` and ends in `.git` with at least one
preceding character; it applies no character-set or `..` restriction, so any
such name — including ones containing `..` or characters outside
`[A-Za-z0-9_-]` — is accepted, and a subprocess is spawned for its
discovery request whenever the resolved path exists. -/
theorem router_charset_amended (nm : List Char) (ctx : ServerCtx) (svc : String)
    (hne : nm ≠ []) (hns : '/' ∉ nm)
    (hex : ctx.fsExists (getRepoPath ctx ⟨nm ++ (".git").data⟩) = true) :
    parsePath ⟨'/' :: (nm ++ (".git/info/refs").data)⟩
        = some (⟨nm ++ (".git").data⟩, "/info/refs")
    ∧ (handleInfoRefs ctx ⟨nm ++ (".git").data⟩ svc).spawns
        = [GitSpawn.advertiseRefs ⟨replaceFirst ("git-").data [] svc.data⟩
            (getRepoPath ctx ⟨nm ++ (".git").data⟩)] := by
  have hall : ∀ c ∈ nm, notSlash c = true := by
    intro c hc
    simp only [notSlash, ne_eq, decide_eq_true_eq]
    intro hceq
    exact hns (hceq ▸ hc)
  constructor
  · unfold parsePath
    simp only
    rw [takeWhile_append_all (".git/info/refs").data hall,
      dropWhile_append_all (".git/info/refs").data hall]
    have ht : (".git/info/refs").data.takeWhile notSlash = (".git").data := by decide
    have hd : (".git/info/refs").data.dropWhile notSlash = ("/info/refs").data := by
      decide
    rw [ht, hd]
    have hcond : 5 ≤ (nm ++ (".git").data).length
        ∧ List.isSuffixOf (".git").data (nm ++ (".git").data) := by
      constructor
      · have : 0 < nm.length := List.length_pos.mpr hne
        simp only [List.length_append]
        simp
        omega
      · exact isSuffixOf_append_self (".git").data nm
    rw [if_pos hcond]
    rfl
  · simp [handleInfoRefs, hex]

theorem router_charset_amended_witness :
    (("a..b").data ≠ [] ∧ '/' ∉ ("a..b").data
      ∧ ctxAll.fsExists (getRepoPath ctxAll ⟨("a..b").data ++ (".git").data⟩) = true)
    ∧ (parsePath ⟨'/' :: (("a..b").data ++ (".git/info/refs").data)⟩
        = some (⟨("a..b").data ++ (".git").data⟩, "/info/refs")
      ∧ (handleInfoRefs ctxAll ⟨("a..b").data ++ (".git").data⟩ "git-upload-pack").spawns
        = [GitSpawn.advertiseRefs ⟨replaceFirst ("git-").data [] ("git-upload-pack").data⟩
            (getRepoPath ctxAll ⟨("a..b").data ++ (".git").data⟩)]) :=
  ⟨⟨by decide, by decide, rfl⟩,
   router_charset_amended ("a..b").data ctxAll "git-upload-pack" (by decide) (by decide) rfl⟩

theorem advertisement_prefix_amended_witness :
    (ctxAll.fsExists (getRepoPath ctxAll "r.git") = true)
    ∧ ((handleInfoRefs ctxAll "r.git" "git-upload-pack").bodyPrefix
        = packetLine ("# service=" ++ "git-upload-pack" ++ "\n").data ++ flushPkt
      ∧ ("git-upload-pack" = "git-upload-pack" →
          (handleInfoRefs ctxAll "r.git" "git-upload-pack").bodyPrefix
            = ("001e# service=git-upload-pack\n0000").data)
      ∧ ("git-upload-pack" = "git-receive-pack" →
          (handleInfoRefs ctxAll "r.git" "git-upload-pack").bodyPrefix
            = ("001f# service=git-receive-pack\n0000").data)) :=
  ⟨rfl, advertisement_prefix_amended ctxAll "r.git" "git-upload-pack" rfl⟩

/-- C6: for every delivery that issues a request, the request body is
exactly the record's serialized body; when the subscription has a nonempty
secret the signature header is `sha256=` followed by HMAC-SHA256 with the
secret as key over exactly those body bytes, and when the secret is empty
the signature header is absent. -/
theorem webhook_signature_spec (env : WebhookEnv) (webhooks : List Webhook)
    (repoName : String) (payload : PushPayload) (r : DeliveryRecord)
    (req : WebhookRequest)
    (hr : r ∈ triggerWebhooks env webhooks repoName "push" payload)
    (hq : r.request = some req) :
    req.body = r.body
    ∧ (r.webhook.secret ≠ "" →
        req.headers.lookup "X-GutHib-Signature"
          = some ("sha256=" ++ env.hmacHex r.webhook.secret r.body))
    ∧ (r.webhook.secret = "" →
        req.headers.lookup "X-GutHib-Signature" = none) := by
  unfold triggerWebhooks at hr
  rcases List.mem_map.mp hr with ⟨p, hp, hpr⟩
  subst hpr
  cases hu : env.parseUrl p.2.url with
  | none => simp [mkDelivery, hu] at hq
  | some u =>
    simp only [mkDelivery, hu] at hq ⊢
    rcases Option.some.inj hq with hreq
    subst hreq
    refine ⟨rfl, ?_, ?_⟩
    · intro hs
      rw [lookup_mkHeaders_sig, if_neg hs]
    · intro hs
      rw [lookup_mkHeaders_sig, if_pos hs]

def c6rec : DeliveryRecord :=
  mkDelivery envFix "r.git" "push" { ref := "refs/heads/main" } 0 hookB

def c6body : String :=
  stringifyPush "push" "r.git" "2026-02-03T04:05:06.789Z" "refs/heads/main"

def c6req : WebhookRequest :=
  { hostname := "ci.example.com", port := 80, path := "/hook",
    headers := mkHeaders envFix 0 "push" hookB c6body, body := c6body }

theorem webhook_signature_spec_witness :
    (c6rec ∈ triggerWebhooks envFix [hookB] "r.git" "push" { ref := "refs/heads/main" }
      ∧ c6rec.request = some c6req)
    ∧ (c6req.body = c6rec.body
      ∧ (c6rec.webhook.secret ≠ "" →
          c6req.headers.lookup "X-GutHib-Signature"
            = some ("sha256=" ++ envFix.hmacHex c6rec.webhook.secret c6rec.body))
      ∧ (c6rec.webhook.secret = "" →
          c6req.headers.lookup "X-GutHib-Signature" = none)) :=
  ⟨⟨by decide, by decide⟩,
   webhook_signature_spec envFix [hookB] "r.git" { ref := "refs/heads/main" }
     c6rec c6req (by decide) (by decide)⟩

/-- C7: deliveries are independent.  Changing the network outcomes of the
deliveries (failures, non-2xx responses, slowness modelled as arbitrary
per-delivery outcomes) never changes the HTTP response sent to the pushing
client, never changes which requests are attempted nor their bodies or
headers, and a record is fully determined by its own outcome alone — one
subscriber's outcome cannot affect another's delivery; moreover each
matching subscription gets exactly one attempt (no retries). -/
theorem webhook_failure_isolation (ctx : ServerCtx) (env env' : WebhookEnv)
    (webhooks : List Webhook) (repo : String) (exitCode : Int)
    (hp : env.parseUrl = env'.parseUrl) (hh : env.hmacHex = env'.hmacHex)
    (hc : env.clock = env'.clock) (ht : env.isoTime = env'.isoTime) :
    (handleReceivePack ctx env webhooks repo exitCode).response
        = (handleReceivePack ctx env' webhooks repo exitCode).response
    ∧ (handleReceivePack ctx env webhooks repo exitCode).deliveries.map
          (fun r => (r.webhook, r.body, r.request))
        = (handleReceivePack ctx env' webhooks repo exitCode).deliveries.map
          (fun r => (r.webhook, r.body, r.request))
    ∧ (∀ i, env.outcome i = env'.outcome i →
        (handleReceivePack ctx env webhooks repo exitCode).deliveries.get? i
          = (handleReceivePack ctx env' webhooks repo exitCode).deliveries.get? i)
    ∧ ((handleReceivePack ctx env webhooks repo exitCode).deliveries.map
          DeliveryRecord.webhook
        = webhooks.filter (fun w => jsIncludes w.events "push")
      ∨ (handleReceivePack ctx env webhooks repo exitCode).deliveries = []) := by
  by_cases hfs : ctx.fsExists (getRepoPath ctx repo) = false
  · refine ⟨?_, ?_, ?_, Or.inr ?_⟩ <;> simp [handleReceivePack, hfs]
  · have hfs' : ctx.fsExists (getRepoPath ctx repo) = true := by
      revert hfs
      cases ctx.fsExists (getRepoPath ctx repo) <;> simp
    by_cases h0 : exitCode = 0
    · refine ⟨?_, ?_, ?_, Or.inl ?_⟩
      · simp [handleReceivePack, hfs']
      · simp only [handleReceivePack, hfs', Bool.true_eq_false, if_false, h0, if_pos]
        unfold triggerWebhooks
        rw [List.map_map, List.map_map]
        apply List.map_congr_left
        intro p hp2
        obtain ⟨c1, c2, c3⟩ := mkDelivery_core_congr env env' hp hh hc ht repo "push"
          { ref := "refs/heads/main" } p.1 p.2
        simp [c1, c2, c3]
      · intro i hoi
        simp only [handleReceivePack, hfs', Bool.true_eq_false, if_false, h0, if_pos]
        unfold triggerWebhooks
        rw [List.get?_map, List.get?_map]
        simp only [List.enum]
        rw [enumFrom_get?]
        cases hx : (webhooks.filter (fun w => jsIncludes w.events "push")).get? i with
        | none => rfl
        | some w =>
          simp only [Option.map_some']
          rw [mkDelivery_congr_outcome env env' hp hh hc ht repo "push"
            { ref := "refs/heads/main" } (0 + i) w (by simpa using hoi)]
      · simp [handleReceivePack, hfs', h0, triggerWebhooks_map_webhook]
    · refine ⟨?_, ?_, ?_, Or.inr ?_⟩ <;> simp [handleReceivePack, hfs', h0]

theorem webhook_failure_isolation_witness :
    (envFix.parseUrl = envFailing.parseUrl ∧ envFix.hmacHex = envFailing.hmacHex
      ∧ envFix.clock = envFailing.clock ∧ envFix.isoTime = envFailing.isoTime)
    ∧ ((handleReceivePack ctxAll envFix [hookA, hookB] "r.git" 0).response
        = (handleReceivePack ctxAll envFailing [hookA, hookB] "r.git" 0).response
      ∧ (handleReceivePack ctxAll envFix [hookA, hookB] "r.git" 0).deliveries.map
            (fun r => (r.webhook, r.body, r.request))
          = (handleReceivePack ctxAll envFailing [hookA, hookB] "r.git" 0).deliveries.map
            (fun r => (r.webhook, r.body, r.request))
      ∧ (∀ i, envFix.outcome i = envFailing.outcome i →
          (handleReceivePack ctxAll envFix [hookA, hookB] "r.git" 0).deliveries.get? i
            = (handleReceivePack ctxAll envFailing [hookA, hookB] "r.git" 0).deliveries.get? i)
      ∧ ((handleReceivePack ctxAll envFix [hookA, hookB] "r.git" 0).deliveries.map
            DeliveryRecord.webhook
          = [hookA, hookB].filter (fun w => jsIncludes w.events "push")
        ∨ (handleReceivePack ctxAll envFix [hookA, hookB] "r.git" 0).deliveries = [])) :=
  ⟨⟨rfl, rfl, rfl, rfl⟩,
   webhook_failure_isolation ctxAll envFix envFailing [hookA, hookB] "r.git" 0
     rfl rfl rfl rfl⟩

/-- C8: on a successful receive-pack the dispatcher is invoked with the
hardcoded payload `{ref: 'refs/heads/main'}` — the model of the handler
never consults the pushed refs — so every delivery body carries
`refs/heads/main` as its ref field. -/
theorem webhook_ref_hardcoded_main (ctx : ServerCtx) (env : WebhookEnv)
    (webhooks : List Webhook) (repo : String) (exitCode : Int)
    (hex : ctx.fsExists (getRepoPath ctx repo) = true) (h0 : exitCode = 0) :
    (handleReceivePack ctx env webhooks repo exitCode).deliveries
        = triggerWebhooks env webhooks repo "push" { ref := "refs/heads/main" }
    ∧ ∀ r ∈ (handleReceivePack ctx env webhooks repo exitCode).deliveries,
        ∃ i, r.body = stringifyPush "push" repo (env.isoTime i) "refs/heads/main" := by
  have h1 : (handleReceivePack ctx env webhooks repo exitCode).deliveries
      = triggerWebhooks env webhooks repo "push" { ref := "refs/heads/main" } := by
    simp [handleReceivePack, hex, h0]
  refine ⟨h1, ?_⟩
  intro r hr
  rw [h1] at hr
  unfold triggerWebhooks at hr
  rcases List.mem_map.mp hr with ⟨p, hp, hpr⟩
  exact ⟨p.1, by rw [← hpr, mkDelivery_body]⟩

theorem webhook_ref_hardcoded_main_witness :
    (ctxAll.fsExists (getRepoPath ctxAll "r.git") = true ∧ (0 : Int) = 0)
    ∧ ((handleReceivePack ctxAll envFix [hookA] "r.git" 0).deliveries
        = triggerWebhooks envFix [hookA] "r.git" "push" { ref := "refs/heads/main" }
      ∧ ∀ r ∈ (handleReceivePack ctxAll envFix [hookA] "r.git" 0).deliveries,
          ∃ i, r.body = stringifyPush "push" "r.git" (envFix.isoTime i) "refs/heads/main") :=
  ⟨⟨rfl, rfl⟩,
   webhook_ref_hardcoded_main ctxAll envFix [hookA] "r.git" 0 rfl rfl⟩

/-- C9: the delivery-id header is `Date.now().toString()`, so two distinct
dispatch attempts made in the same millisecond — here the two deliveries of
one push to two different subscribers — carry the *same* delivery-id header
value, contradicting the claimed uniqueness. -/
theorem delivery_id_collision_same_ms :
    (triggerWebhooks envFix [hookA, hookB] "r.git" "push"
        { ref := "refs/heads/main" }).map
        (fun r => (r.webhook.url,
          r.request.map (fun q => q.headers.lookup "X-GutHib-Delivery")))
      = [("http://a.example/hook", some (some "42")),
         ("http://b.example/hook", some (some "42"))] := by
  decide

/-- C10: the dispatcher's event filter is JS substring containment on the
stored `events` string — a subscription is delivered iff `events` contains
`"push"` as a contiguous substring, so `"pushover"` and `"nopush"` also
match. -/
theorem dispatch_filter_is_substring (env : WebhookEnv) (webhooks : List Webhook)
    (repoName : String) (payload : PushPayload) :
    (triggerWebhooks env webhooks repoName "push" payload).map DeliveryRecord.webhook
        = webhooks.filter (fun w => jsIncludes w.events "push")
    ∧ (∀ w : Webhook, jsIncludes w.events "push" = true ↔
        ∃ u v, w.events.data = u ++ ("push").data ++ v)
    ∧ jsIncludes "pushover" "push" = true
    ∧ jsIncludes "nopush" "push" = true := by
  refine ⟨triggerWebhooks_map_webhook env webhooks repoName "push" payload, ?_,
    by decide, by decide⟩
  intro w
  exact jsIncludes_iff w.events "push"

end GutHib
